import Mathlib

/-!
Shallow embedding of the order-total and promotion logic of the
eShopping-api repository (src/App/Models/promotion.js and
src/App/Models/order.js, plus the Joi order-creation schema of the
order controller), together with theorems settling the specification
claims about that logic.

Prices and monetary values are modelled as rationals, timestamps as
integers, usage counters as naturals. JavaScript `undefined` fields are
modelled with `Option`; JS truthiness of a numeric field (`!this.maxUsage`)
is modelled explicitly (absent or zero is falsy).
-/

namespace EShop

/-- Promotion type enum from promotionSchema: 'percentage' | 'fixed'. -/
inductive PromoType where
  | percentage
  | fixed
  deriving DecidableEq, Repr

/-- Promotion document, after promotionSchema in promotion.js.
`maxUsage` is optional in the schema (and has a min-1 validator);
`currentUsage` defaults to 0. -/
structure Promotion where
  ptype : PromoType
  value : ℚ
  productId : ℕ
  startDate : ℤ
  endDate : ℤ
  active : Bool
  maxUsage : Option ℕ
  currentUsage : ℕ
  deriving DecidableEq, Repr

/-- JS truthiness test `this.maxUsage && this.currentUsage >= this.maxUsage`
used by both the pre-save hook and incrementUsage: maxUsage must be present
and nonzero (JS falsiness of 0/undefined), and currentUsage at or above it. -/
def Promotion.capReached (p : Promotion) : Bool :=
  match p.maxUsage with
  | none => false
  | some m => m != 0 && p.currentUsage ≥ m

/-- promotionSchema.pre('save'): if maxUsage is truthy and
currentUsage >= maxUsage, set active to false. -/
def promotionPreSave (p : Promotion) : Promotion :=
  if p.capReached then { p with active := false } else p

/-- promotionSchema.methods.isValid, with `new Date()` passed explicitly
as `now`: active AND now >= startDate AND now <= endDate AND
(!maxUsage || currentUsage < maxUsage). -/
def Promotion.isValid (p : Promotion) (now : ℤ) : Bool :=
  p.active && decide (now ≥ p.startDate) && decide (now ≤ p.endDate) &&
    (match p.maxUsage with
     | none => true
     | some m => m == 0 || decide (p.currentUsage < m))

/-- promotionSchema.methods.apply: no-op on an invalid promotion, otherwise
percentage promotions scale the price and fixed promotions subtract with a
floor at zero. -/
def Promotion.apply (p : Promotion) (now : ℤ) (price : ℚ) : ℚ :=
  if p.isValid now then
    match p.ptype with
    | .percentage => price * (1 - p.value / 100)
    | .fixed => max 0 (price - p.value)
  else price

/-- The single error kind thrown by promotion.js. -/
inductive PromoError where
  | UsageExceeded
  deriving DecidableEq, Repr

/-- promotionSchema.methods.incrementUsage: throws when the usage cap is
reached, otherwise increments currentUsage and saves (the save runs the
pre-save hook, which may flip `active` off). -/
def Promotion.incrementUsage (p : Promotion) : Except PromoError Promotion :=
  if p.capReached then
    .error .UsageExceeded
  else
    .ok (promotionPreSave { p with currentUsage := p.currentUsage + 1 })

/-- The schema-level constraint on maxUsage (min: 1 in promotionSchema):
when present, it is at least 1. -/
def maxUsageSchemaOk (p : Promotion) : Prop :=
  ∀ m, p.maxUsage = some m → 1 ≤ m

/-- One order line entry, after the items subdocument of orderSchema in
order.js. `price` is Option because the pre-save hook tests
`item.price !== undefined`. -/
structure OrderItem where
  product : ℕ
  quantity : ℕ
  price : Option ℚ
  deriving DecidableEq, Repr

/-- The error thrown by the order pre-save hook:
"Produit non trouvé pour l'article : <id>". -/
inductive OrderError where
  | ProductNotFound (productId : ℕ)
  deriving DecidableEq, Repr

/-- One step of the item mapping in orderSchema.pre('save'): look the product
up (failing when absent), take the explicit item price when defined and the
product's price otherwise, and multiply by the quantity. `resolve` stands for
`mongoose.model('Product').findById`, returning the product's price. -/
def lineSubtotal (resolve : ℕ → Option ℚ) (item : OrderItem) :
    Except OrderError ℚ :=
  match resolve item.product with
  | none => .error (.ProductNotFound item.product)
  | some productPrice =>
      let itemPrice := match item.price with
        | some pr => pr
        | none => productPrice
      .ok (item.quantity * itemPrice)

/-- The per-line unit price the hook uses: the explicit item price when it is
defined (`item.price !== undefined`), the resolved product price otherwise. -/
def unitPrice (resolve : ℕ → Option ℚ) (item : OrderItem) : ℚ :=
  match item.price with
  | some pr => pr
  | none => (resolve item.product).getD 0

/-- orderSchema.pre('save'): map lineSubtotal over the items (Promise.all
rejects with the first line failure), reduce with + from 0, and add
taxPrice and shippingPrice. -/
def computeTotalPrice (resolve : ℕ → Option ℚ) (items : List OrderItem)
    (taxPrice shippingPrice : ℚ) : Except OrderError ℚ :=
  (items.mapM (lineSubtotal resolve)).map
    (fun prices => prices.foldl (· + ·) 0 + taxPrice + shippingPrice)

/-- Joi orderItemSchema of the order controller: quantity is a required
integer at least 1, price is a required number at least 0. -/
def orderItemSchemaOk (item : OrderItem) : Bool :=
  1 ≤ item.quantity &&
    (match item.price with
     | some pr => decide (0 ≤ pr)
     | none => false)

/-- The items rule of Joi createSchema in the order controller:
a required array of valid items with at least one element. -/
def createSchemaItemsOk (items : List OrderItem) : Bool :=
  1 ≤ items.length && items.all orderItemSchemaOk

/-- Under the schema constraint, the JS truthy cap test coincides with
"maxUsage is set and currentUsage has reached it". -/
theorem capReached_iff (p : Promotion) (hschema : maxUsageSchemaOk p) :
    p.capReached = true ↔ ∃ m, p.maxUsage = some m ∧ m ≤ p.currentUsage := by
  unfold Promotion.capReached
  cases hmu : p.maxUsage with
  | none => simp
  | some m =>
    have h1 : 1 ≤ m := hschema m hmu
    simp
    omega

/-- The pre-save hook touches no field but active. -/
theorem promotionPreSave_fields (p : Promotion) :
    (promotionPreSave p).currentUsage = p.currentUsage ∧
    (promotionPreSave p).maxUsage = p.maxUsage ∧
    (promotionPreSave p).ptype = p.ptype ∧
    (promotionPreSave p).value = p.value ∧
    (promotionPreSave p).startDate = p.startDate ∧
    (promotionPreSave p).endDate = p.endDate := by
  unfold promotionPreSave
  split <;> exact ⟨rfl, rfl, rfl, rfl, rfl, rfl⟩

/-- The pre-save hook's effect on active: forced to false exactly when the
cap is reached. -/
theorem promotionPreSave_active (p : Promotion) :
    (promotionPreSave p).active = if p.capReached then false else p.active := by
  unfold promotionPreSave
  split <;> simp_all

/-- C4: for every promotion and time T, isValid(promotion, T) is true iff
active holds, startDate <= T <= endDate, and maxUsage is unset or
currentUsage < maxUsage; both date boundaries are inclusive, so a promotion
with startDate = T or endDate = T is valid when the other conditions hold. -/
theorem isValid_characterization (p : Promotion) (T : ℤ)
    (hschema : maxUsageSchemaOk p) :
    (p.isValid T = true ↔
      p.active = true ∧ p.startDate ≤ T ∧ T ≤ p.endDate ∧
        (p.maxUsage = none ∨ ∃ m, p.maxUsage = some m ∧ p.currentUsage < m)) ∧
    (p.active = true → p.startDate = T → T ≤ p.endDate →
      (p.maxUsage = none ∨ ∃ m, p.maxUsage = some m ∧ p.currentUsage < m) →
      p.isValid T = true) ∧
    (p.active = true → p.startDate ≤ T → p.endDate = T →
      (p.maxUsage = none ∨ ∃ m, p.maxUsage = some m ∧ p.currentUsage < m) →
      p.isValid T = true) := by
  have hmain : p.isValid T = true ↔
      p.active = true ∧ p.startDate ≤ T ∧ T ≤ p.endDate ∧
        (p.maxUsage = none ∨ ∃ m, p.maxUsage = some m ∧ p.currentUsage < m) := by
    unfold Promotion.isValid
    cases hmu : p.maxUsage with
    | none => simp [hmu, ge_iff_le, and_assoc]
    | some m =>
      have h1 : 1 ≤ m := hschema m hmu
      have hz : (m == 0) = false := by simp; omega
      simp [hmu, hz, ge_iff_le, and_assoc]
  refine ⟨hmain, ?_, ?_⟩
  · intro ha hs he hu
    exact hmain.mpr ⟨ha, le_of_eq hs, he, hu⟩
  · intro ha hs he hu
    exact hmain.mpr ⟨ha, hs, le_of_eq he.symm, hu⟩

/-- Witness for C4: a concrete promotion with startDate = T = 5 (start
boundary) is valid at T. -/
theorem isValid_characterization_witness :
    Promotion.isValid ⟨.percentage, 10, 1, 5, 9, true, some 3, 1⟩ 5 = true :=
  (isValid_characterization ⟨.percentage, 10, 1, 5, 9, true, some 3, 1⟩ 5
      (by intro m hm; simp at hm; omega)).2.1
    rfl rfl (by decide) (Or.inr ⟨3, rfl, by decide⟩)

/-- C5: on a promotion valid at application time and a non-negative price,
a percentage promotion with value in (0,100] yields
price * (1 - value/100), never above the input and never negative, and a
fixed promotion yields max(0, price - value), never negative. -/
theorem apply_valid_bounds (p : Promotion) (now : ℤ) (price : ℚ)
    (hv : p.isValid now = true) (hp : 0 ≤ price) :
    (p.ptype = .percentage → 0 < p.value → p.value ≤ 100 →
      p.apply now price = price * (1 - p.value / 100) ∧
      p.apply now price ≤ price ∧ 0 ≤ p.apply now price) ∧
    (p.ptype = .fixed →
      p.apply now price = max 0 (price - p.value) ∧ 0 ≤ p.apply now price) := by
  constructor
  · intro ht hlo hhi
    have heq : p.apply now price = price * (1 - p.value / 100) := by
      unfold Promotion.apply
      rw [if_pos hv, ht]
    refine ⟨heq, ?_, ?_⟩
    · rw [heq]; nlinarith
    · rw [heq]; nlinarith
  · intro ht
    have heq : p.apply now price = max 0 (price - p.value) := by
      unfold Promotion.apply
      rw [if_pos hv, ht]
    exact ⟨heq, heq ▸ le_max_left 0 (price - p.value)⟩

/-- Witness for C5: a concrete valid fixed promotion of value 10 applied to
price 5 returns max(0, 5 - 10) = 0. -/
theorem apply_valid_bounds_witness :
    Promotion.apply ⟨.fixed, 10, 2, 0, 9, true, none, 0⟩ 4 5 = max 0 (5 - 10) ∧
    0 ≤ Promotion.apply ⟨.fixed, 10, 2, 0, 9, true, none, 0⟩ 4 5 :=
  (apply_valid_bounds ⟨.fixed, 10, 2, 0, 9, true, none, 0⟩ 4 5
      (by decide) (by norm_num)).2 rfl

/-- C6: a promotion that is not valid at application time leaves the price
unchanged — apply is a silent no-op, not an error. -/
theorem apply_invalid_noop (p : Promotion) (now : ℤ) (price : ℚ)
    (h : p.isValid now = false) : p.apply now price = price := by
  unfold Promotion.apply
  rw [h]
  simp

/-- Witness for C6: the scenario-D promotion (maxUsage 1, currentUsage 1) is
invalid inside its date window, and apply returns the input price 20
unchanged. -/
theorem apply_invalid_noop_witness :
    Promotion.apply ⟨.percentage, 10, 3, 0, 9, true, some 1, 1⟩ 4 20 = 20 :=
  apply_invalid_noop ⟨.percentage, 10, 3, 0, 9, true, some 1, 1⟩ 4 20 (by decide)

/-- C9: the promotion pre-save hook deactivates an exhausted promotion on any
save path: whenever maxUsage is set (schema minimum 1) and currentUsage has
reached it, the saved document has active = false. -/
theorem preSave_deactivates_exhausted (p : Promotion) (m : ℕ)
    (hm : p.maxUsage = some m) (h1 : 1 ≤ m) (hge : m ≤ p.currentUsage) :
    (promotionPreSave p).active = false := by
  have hcap : p.capReached = true := by
    unfold Promotion.capReached
    rw [hm]
    simp
    omega
  unfold promotionPreSave
  rw [if_pos hcap]

/-- Witness for C9: a promotion saved with currentUsage 5 ≥ maxUsage 3 comes
out of the hook with active = false, even though it was never incremented. -/
theorem preSave_deactivates_exhausted_witness :
    (promotionPreSave ⟨.fixed, 2, 4, 0, 9, true, some 3, 5⟩).active = false :=
  preSave_deactivates_exhausted ⟨.fixed, 2, 4, 0, 9, true, some 3, 5⟩ 3
    rfl (by decide) (by decide)

/-- C3: incrementUsage fails with UsageExceeded exactly when maxUsage is set
and currentUsage has reached it (the failing call returns no modified
promotion, mirroring the throw before any mutation); on success it increments
currentUsage by exactly 1, keeps every other input field, and flips active to
false precisely when the new count reaches maxUsage. -/
theorem incrementUsage_spec (p : Promotion) (hschema : maxUsageSchemaOk p) :
    (p.incrementUsage = .error .UsageExceeded ↔
      ∃ m, p.maxUsage = some m ∧ m ≤ p.currentUsage) ∧
    (∀ q, p.incrementUsage = .ok q →
      q.currentUsage = p.currentUsage + 1 ∧
      q.maxUsage = p.maxUsage ∧ q.ptype = p.ptype ∧ q.value = p.value ∧
      q.startDate = p.startDate ∧ q.endDate = p.endDate ∧
      ((∃ m, p.maxUsage = some m ∧ q.currentUsage = m) → q.active = false) ∧
      ((∀ m, p.maxUsage = some m → q.currentUsage < m) → q.active = p.active)) := by
  have hcap := capReached_iff p hschema
  constructor
  · unfold Promotion.incrementUsage
    by_cases h : p.capReached = true
    · rw [if_pos h]
      simpa using hcap.mp h
    · rw [if_neg h]
      constructor
      · intro hcontra
        exact absurd hcontra (by simp)
      · intro hex
        exact absurd (hcap.mpr hex) h
  · intro q hq
    unfold Promotion.incrementUsage at hq
    by_cases h : p.capReached = true
    · rw [if_pos h] at hq
      exact absurd hq (by simp)
    · rw [if_neg h] at hq
      have hnot : ¬ ∃ m, p.maxUsage = some m ∧ m ≤ p.currentUsage :=
        fun hex => h (hcap.mpr hex)
      have hq' : q = promotionPreSave { p with currentUsage := p.currentUsage + 1 } := by
        injection hq.symm
      subst hq'
      have hfields := promotionPreSave_fields { p with currentUsage := p.currentUsage + 1 }
      have hactive := promotionPreSave_active { p with currentUsage := p.currentUsage + 1 }
      have hcap' : ({ p with currentUsage := p.currentUsage + 1 } : Promotion).capReached = true ↔
          ∃ m, p.maxUsage = some m ∧ m ≤ p.currentUsage + 1 :=
        capReached_iff { p with currentUsage := p.currentUsage + 1 }
          (fun m hm => hschema m hm)
      refine ⟨hfields.1, hfields.2.1, hfields.2.2.1, hfields.2.2.2.1,
        hfields.2.2.2.2.1, hfields.2.2.2.2.2, ?_, ?_⟩
      · intro hex
        obtain ⟨m, hm, hqm⟩ := hex
        rw [hfields.1] at hqm
        have : ({ p with currentUsage := p.currentUsage + 1 } : Promotion).capReached = true :=
          hcap'.mpr ⟨m, hm, le_of_eq hqm.symm⟩
        rw [hactive, if_pos this]
      · intro hall
        have : ({ p with currentUsage := p.currentUsage + 1 } : Promotion).capReached = false := by
          by_contra hc
          have hc' : ({ p with currentUsage := p.currentUsage + 1 } : Promotion).capReached = true := by
            revert hc
            cases ({ p with currentUsage := p.currentUsage + 1 } : Promotion).capReached <;> simp
          obtain ⟨m, hm, hle⟩ := hcap'.mp hc'
          have hcur := hall m hm
          rw [hfields.1] at hcur
          simp at hcur
          omega
        rw [hactive, this, if_neg (by simp)]

/-- Witness for C3: incrementing a promotion with maxUsage 2 and
currentUsage 1 succeeds, yields currentUsage 2, and flips active off because
the new count reaches the cap. -/
theorem incrementUsage_spec_witness :
    Promotion.incrementUsage ⟨.fixed, 2, 5, 0, 9, true, some 2, 1⟩ =
      .ok (promotionPreSave ⟨.fixed, 2, 5, 0, 9, true, some 2, 2⟩) ∧
    (promotionPreSave ⟨.fixed, 2, 5, 0, 9, true, some 2, 2⟩).currentUsage = 2 ∧
    (promotionPreSave ⟨.fixed, 2, 5, 0, 9, true, some 2, 2⟩).active = false := by
  have h := (incrementUsage_spec ⟨.fixed, 2, 5, 0, 9, true, some 2, 1⟩
    (by intro m hm; simp at hm; omega)).2
    (promotionPreSave ⟨.fixed, 2, 5, 0, 9, true, some 2, 2⟩) rfl
  exact ⟨rfl, h.1, h.2.2.2.2.2.2.1 ⟨2, rfl, h.1⟩⟩

/-- Folding addition from an accumulator equals the accumulator plus the
list sum. -/
theorem foldl_add_eq_add_sum (l : List ℚ) (a : ℚ) :
    l.foldl (· + ·) a = a + l.sum := by
  induction l generalizing a with
  | nil => simp
  | cons x xs ih => rw [List.foldl_cons, ih, List.sum_cons]; ring

/-- When every line's product resolves, the item mapping of the pre-save hook
yields exactly the list of quantity-times-unit-price subtotals. -/
theorem mapM_lineSubtotal_ok (resolve : ℕ → Option ℚ) (items : List OrderItem)
    (h : ∀ it ∈ items, (resolve it.product).isSome) :
    items.mapM (lineSubtotal resolve) =
      .ok (items.map fun it => (it.quantity : ℚ) * unitPrice resolve it) := by
  induction items with
  | nil => rfl
  | cons it its ih =>
    have hit : (resolve it.product).isSome := h it (List.mem_cons_self it its)
    obtain ⟨pp, hpp⟩ := Option.isSome_iff_exists.mp hit
    have hline : lineSubtotal resolve it =
        .ok ((it.quantity : ℚ) * unitPrice resolve it) := by
      unfold lineSubtotal unitPrice
      rw [hpp]
      cases it.price <;> simp [hpp]
    rw [List.mapM_cons, hline, ih (fun x hx => h x (List.mem_cons_of_mem it hx))]
    rfl

/-- When some line's product fails to resolve, the item mapping of the
pre-save hook fails with a ProductNotFound error. -/
theorem mapM_lineSubtotal_err (resolve : ℕ → Option ℚ) (items : List OrderItem)
    (h : ∃ it ∈ items, resolve it.product = none) :
    ∃ pid, items.mapM (lineSubtotal resolve) =
      Except.error (.ProductNotFound pid) := by
  induction items with
  | nil => simp at h
  | cons it its ih =>
    cases hres : resolve it.product with
    | none =>
      refine ⟨it.product, ?_⟩
      have hline : lineSubtotal resolve it =
          .error (.ProductNotFound it.product) := by
        unfold lineSubtotal
        rw [hres]
      rw [List.mapM_cons, hline]
      rfl
    | some pp =>
      obtain ⟨x, hx, hxnone⟩ := h
      rcases List.mem_cons.mp hx with heq | hx'
      · rw [heq, hres] at hxnone
        exact absurd hxnone (by simp)
      · obtain ⟨pid, hpid⟩ := ih ⟨x, hx', hxnone⟩
        refine ⟨pid, ?_⟩
        have hline : lineSubtotal resolve it =
            .ok ((it.quantity : ℚ) *
              (match it.price with | some pr => pr | none => pp)) := by
          unfold lineSubtotal
          rw [hres]
        rw [List.mapM_cons, hline, hpid]
        rfl

/-- Evaluation form of the pre-save hook when every product resolves: the
total is the sum of quantity-times-unit-price subtotals plus adjustments. -/
theorem computeTotalPrice_ok_eval (resolve : ℕ → Option ℚ)
    (items : List OrderItem) (taxPrice shippingPrice : ℚ)
    (h : ∀ it ∈ items, (resolve it.product).isSome) :
    computeTotalPrice resolve items taxPrice shippingPrice =
      .ok ((items.map fun it => (it.quantity : ℚ) * unitPrice resolve it).sum
        + taxPrice + shippingPrice) := by
  unfold computeTotalPrice
  rw [mapM_lineSubtotal_ok resolve items h]
  simp only [Except.map, foldl_add_eq_add_sum, zero_add]

/-- C2: on a non-empty item list, when every referenced product resolves the
pre-save hook computes total = sum over lines of quantity times unit price
plus taxPrice plus shippingPrice, the unit price being the explicit captured
price when present and the resolved product price otherwise; and when some
line's product fails to resolve, the computation fails with ProductNotFound
and returns no total. -/
theorem computeTotalPrice_no_promo (resolve : ℕ → Option ℚ)
    (items : List OrderItem) (taxPrice shippingPrice : ℚ) (hne : items ≠ []) :
    ((∀ it ∈ items, (resolve it.product).isSome) →
      computeTotalPrice resolve items taxPrice shippingPrice =
        .ok ((items.map fun it => (it.quantity : ℚ) * unitPrice resolve it).sum
          + taxPrice + shippingPrice)) ∧
    ((∃ it ∈ items, resolve it.product = none) →
      ∃ pid, computeTotalPrice resolve items taxPrice shippingPrice =
        Except.error (.ProductNotFound pid)) := by
  constructor
  · intro h
    exact computeTotalPrice_ok_eval resolve items taxPrice shippingPrice h
  · intro h
    obtain ⟨pid, hpid⟩ := mapM_lineSubtotal_err resolve items h
    refine ⟨pid, ?_⟩
    unfold computeTotalPrice
    rw [hpid]
    rfl

/-- Witness for C2: scenario A, item with quantity 2 and explicit price 10,
no promotion involved, tax 0 and shipping 5, totals 25. -/
theorem computeTotalPrice_no_promo_witness :
    computeTotalPrice (fun _ => some 10) [⟨1, 2, some 10⟩] 0 5 = .ok 25 := by
  have h := (computeTotalPrice_no_promo (fun _ => some 10) [⟨1, 2, some 10⟩]
    0 5 (by simp)).1 (by intro it hit; simp)
  rw [h]
  norm_num [unitPrice]

/-- C10: a line's explicit price wins whenever it is defined, including when
it equals 0: the singleton-order total is quantity times the explicit price
plus adjustments, whatever price the resolver would return, and an explicit
price of 0 contributes subtotal 0. -/
theorem explicit_price_precedence (resolve : ℕ → Option ℚ) (item : OrderItem)
    (pr : ℚ) (hpr : item.price = some pr) (hres : (resolve item.product).isSome)
    (taxPrice shippingPrice : ℚ) :
    computeTotalPrice resolve [item] taxPrice shippingPrice =
      .ok ((item.quantity : ℚ) * pr + taxPrice + shippingPrice) ∧
    (pr = 0 → computeTotalPrice resolve [item] taxPrice shippingPrice =
      .ok (taxPrice + shippingPrice)) := by
  have hu : unitPrice resolve item = pr := by
    unfold unitPrice
    rw [hpr]
  have hmain : computeTotalPrice resolve [item] taxPrice shippingPrice =
      .ok ((item.quantity : ℚ) * pr + taxPrice + shippingPrice) := by
    rw [computeTotalPrice_ok_eval resolve [item] taxPrice shippingPrice
      (by intro x hx; simp at hx; rw [hx]; exact hres)]
    simp [hu]
  refine ⟨hmain, ?_⟩
  intro h0
  rw [hmain, h0]
  norm_num

/-- Witness for C10: an explicit price of 0 beats a resolver price of 99; the
total is just tax 1 plus shipping 2. -/
theorem explicit_price_precedence_witness :
    computeTotalPrice (fun _ => some 99) [⟨1, 2, some 0⟩] 1 2 = .ok 3 := by
  have h := (explicit_price_precedence (fun _ => some 99) ⟨1, 2, some 0⟩ 0
    rfl rfl 1 2).2 rfl
  rw [h]
  norm_num

/-- Counterexample for C1 (scenario B): the promotion on product 7 is a valid
10-percent one and apply would discount the unit price 20 to 18, yet the
order pre-save computation yields total 60 = 3 * 20, not the claimed 54 —
the hook never consults promotions. -/
theorem promo_discount_not_in_total_counterexample :
    Promotion.isValid ⟨.percentage, 10, 7, 0, 100, true, none, 0⟩ 50 = true ∧
    Promotion.apply ⟨.percentage, 10, 7, 0, 100, true, none, 0⟩ 50 20 = 18 ∧
    computeTotalPrice (fun pid => if pid = 7 then some 20 else none)
      [⟨7, 3, some 20⟩] 0 0 = .ok 60 ∧
    (60 : ℚ) ≠ 54 := by
  refine ⟨by decide, ?_, ?_, by norm_num⟩
  · norm_num [Promotion.apply, Promotion.isValid]
  · rw [computeTotalPrice_ok_eval _ _ _ _
      (by intro it hit; simp at hit; rw [hit]; rfl)]
    norm_num [unitPrice]

/-- Amended C1: the order pre-save total computation ignores promotions and
multiplies quantity by the raw unit price (scenario B totals 60); the
promotion's apply method on its own does return the discounted per-unit
price 18, so discount-then-multiply would give 54, but no order code
invokes it. -/
theorem promo_discount_not_in_total_amended :
    Promotion.apply ⟨.percentage, 10, 7, 0, 100, true, none, 0⟩ 50 20 = 18 ∧
    (3 : ℚ) * Promotion.apply ⟨.percentage, 10, 7, 0, 100, true, none, 0⟩ 50 20 = 54 ∧
    computeTotalPrice (fun pid => if pid = 7 then some 20 else none)
      [⟨7, 3, some 20⟩] 0 0 = .ok 60 := by
  refine ⟨?_, ?_, ?_⟩
  · norm_num [Promotion.apply, Promotion.isValid]
  · norm_num [Promotion.apply, Promotion.isValid]
  · rw [computeTotalPrice_ok_eval _ _ _ _
      (by intro it hit; simp at hit; rw [hit]; rfl)]
    norm_num [unitPrice]

/-- Counterexample for C7: on an empty item list the pre-save computation
does not fail — it succeeds and returns taxPrice + shippingPrice (here
ok 5), not an EmptyOrder rejection. -/
theorem emptyOrder_counterexample :
    computeTotalPrice (fun _ => none) [] 0 5 = .ok 5 ∧
    (computeTotalPrice (fun _ => none) [] 0 5).isOk = true := by
  have h : computeTotalPrice (fun _ => none) [] 0 5 = .ok 5 := by
    rw [computeTotalPrice_ok_eval (fun _ => none) [] 0 5
      (by intro it hit; simp at hit)]
    norm_num
  exact ⟨h, by rw [h]; rfl⟩

/-- Amended C7: the pre-save total computation accepts an empty item list and
returns taxPrice + shippingPrice; the empty-order rejection lives instead in
the controller's Joi createSchema, whose items rule requires at least one
valid item. -/
theorem emptyOrder_amended :
    computeTotalPrice (fun _ => none) [] 0 5 = .ok 5 ∧
    createSchemaItemsOk [] = false := by
  refine ⟨?_, rfl⟩
  rw [computeTotalPrice_ok_eval (fun _ => none) [] 0 5
    (by intro it hit; simp at hit)]
  norm_num

/-- Counterexample for C8: a negative taxPrice of -5 is not rejected — the
pre-save computation succeeds and folds it into the total (1 * 10 - 5 = 5). -/
theorem invalidAdjustment_counterexample :
    computeTotalPrice (fun _ => some 3) [⟨1, 1, some 10⟩] (-5) 0 = .ok 5 ∧
    (computeTotalPrice (fun _ => some 3) [⟨1, 1, some 10⟩] (-5) 0).isOk = true := by
  have h : computeTotalPrice (fun _ => some 3) [⟨1, 1, some 10⟩] (-5) 0 = .ok 5 := by
    rw [computeTotalPrice_ok_eval _ _ _ _ (by intro it hit; rfl)]
    norm_num [unitPrice]
  exact ⟨h, by rw [h]; rfl⟩

/-- Amended C8: the pre-save computation performs no sign check on taxPrice
or shippingPrice (their schema defaults are 0); whatever their sign, they are
added unconditionally to the sum of line subtotals. -/
theorem invalidAdjustment_amended (taxPrice shippingPrice : ℚ) :
    computeTotalPrice (fun _ => some 3) [⟨1, 1, some 10⟩] taxPrice shippingPrice =
      .ok (10 + taxPrice + shippingPrice) := by
  rw [computeTotalPrice_ok_eval _ _ _ _ (by intro it hit; rfl)]
  norm_num [unitPrice]

end EShop
